import Mathlib

/-!
Verification of the Prior/Constraint engine of dsr/prior.py
(deep-symbolic-optimization).

Floating-point values are modelled exactly: finite values are exact
integers (the engine only ever produces the finite value 0.0), plus the
IEEE special values +inf, -inf and NaN, with the IEEE addition rules on
the specials.  numpy arrays of shape (n, L) are
modelled as functions over Fin n and Fin L; the numpy operations used by
prior.py (boolean masking, fancy-index assignment, elementwise addition,
isin, row sums) are embedded below.
-/

/-- Exact model of a float value: an exact finite value, +inf, -inf or
NaN. -/
inductive F where
  | fin : ℤ → F
  | pinf : F
  | ninf : F
  | nan : F
deriving DecidableEq

namespace F

/-- IEEE addition on the value model (finite arithmetic is exact). -/
def add : F → F → F
  | fin a, fin b => fin (a + b)
  | fin _, pinf => pinf
  | fin _, ninf => ninf
  | fin _, nan => nan
  | pinf, fin _ => pinf
  | pinf, pinf => pinf
  | pinf, ninf => nan
  | pinf, nan => nan
  | ninf, fin _ => ninf
  | ninf, pinf => nan
  | ninf, ninf => ninf
  | ninf, nan => nan
  | nan, _ => nan

instance : Zero F := ⟨fin 0⟩

instance : Add F := ⟨add⟩

instance : AddCommMonoid F where
  add_assoc := by
    intro a b c
    cases a <;> cases b <;> cases c <;> try rfl
    all_goals refine congrArg F.fin ?_; omega
  zero_add := by
    intro a
    cases a <;> try rfl
    refine congrArg F.fin ?_; omega
  add_zero := by
    intro a
    cases a <;> try rfl
    refine congrArg F.fin ?_; omega
  add_comm := by
    intro a b
    cases a <;> cases b <;> try rfl
    refine congrArg F.fin ?_; omega
  nsmul := nsmulRec
  nsmul_zero := fun _ => rfl
  nsmul_succ := fun _ _ => rfl

end F

/-- A (batch, L)-shaped float array. -/
def Mat (n L : ℕ) := Fin n → Fin L → F

/-- A length-L float vector. -/
def Vec (L : ℕ) := Fin L → F

/-- np.zeros((n, L)). -/
def zeroMat (n L : ℕ) : Mat n L := fun _ _ => 0

/-- np.zeros((L,)). -/
def zeroVec (L : ℕ) : Vec L := fun _ => 0

/-- Elementwise addition of two (n, L) arrays. -/
def matAdd {n L : ℕ} (p q : Mat n L) : Mat n L := fun i j => p i j + q i j

/-- Elementwise addition of two length-L vectors. -/
def vecAdd {L : ℕ} (p q : Vec L) : Vec L := fun j => p j + q j

/-- numpy assignment prior[mask, t] = -np.inf for a scalar token id t:
every row where the mask is true gets -inf in column t. -/
def assignMaskCol {n L : ℕ} (p : Mat n L) (mask : Fin n → Bool) (t : ℕ) :
    Mat n L :=
  fun i j => if mask i = true ∧ (j : ℕ) = t then F.ninf else p i j

/-- Constraint.make_constraint (prior.py lines 180-208): start from a zero
(n, L) array and, for each token id t in the list, perform the assignment
prior[mask, t] = -np.inf. -/
def make_constraint (n L : ℕ) (mask : Fin n → Bool) (tokens : List ℕ) :
    Mat n L :=
  tokens.foldl (fun p t => assignMaskCol p mask t) (zeroMat n L)

/-- numpy assignment prior[mask, ts] = -np.inf where ts is an integer
array (mixed boolean/integer advanced indexing): the boolean mask is
replaced by the list of its true row indices, which is then broadcast
against ts.  Equal lengths pair up elementwise; a length-1 side is
repeated; incompatible lengths raise a shape-mismatch error (none). -/
def assignMaskVec {n L : ℕ} (p : Mat n L) (mask : Fin n → Bool)
    (ts : List ℕ) : Option (Mat n L) :=
  let rows := (List.finRange n).filter (fun i => mask i)
  if rows.length = ts.length then
    some ((rows.zip ts).foldl
      (fun q rt => fun i j =>
        if i = rt.1 ∧ (j : ℕ) = rt.2 then F.ninf else q i j) p)
  else if ts.length = 1 then
    some (assignMaskCol p mask (ts.headD 0))
  else
    match rows with
    | [r] => some (ts.foldl
        (fun q t => fun i j =>
          if i = r ∧ (j : ℕ) = t then F.ninf else q i j) p)
    | _ => none

/-- Constraint.make_constraint as invoked with a list of token-id arrays
(the uchild branch passes [self.targets]): each element of the list is a
whole array, so each loop iteration performs a mixed-index assignment. -/
def make_constraint_vec (n L : ℕ) (mask : Fin n → Bool)
    (groups : List (List ℕ)) : Option (Mat n L) :=
  groups.foldlM (fun p ts => assignMaskVec p mask ts) (zeroMat n L)

/-- Modelled from the spec: the Library collaborator (dsr/library.py is
not under src/).  Per spec section 3 it registers L tokens with stable ids
0..L-1, each with an arity and an input-variable flag, and exposes a
parent-adjustment lookup and the inverse-token pairs.  The classification
sets below are derived from arity and the input flag. -/
structure Library where
  L : ℕ
  arity : ℕ → ℕ
  input_var : ℕ → Bool
  parent_adjust : ℕ → ℤ
  inverse_tokens : List (ℕ × ℕ)

/-- Modelled from the spec: ids of arity-0 tokens. -/
def Library.terminal_tokens (lib : Library) : List ℕ :=
  (List.range lib.L).filter (fun t => lib.arity t = 0)

/-- Modelled from the spec: ids of arity-1 tokens. -/
def Library.unary_tokens (lib : Library) : List ℕ :=
  (List.range lib.L).filter (fun t => lib.arity t = 1)

/-- Modelled from the spec: ids of arity-2 tokens. -/
def Library.binary_tokens (lib : Library) : List ℕ :=
  (List.range lib.L).filter (fun t => lib.arity t = 2)

/-- Modelled from the spec: ids of input-variable tokens. -/
def Library.input_tokens (lib : Library) : List ℕ :=
  (List.range lib.L).filter (fun t => lib.input_var t)

/-- Modelled from the spec: ids of terminal tokens that are not input
variables (hard-coded constants and the like). -/
def Library.float_tokens (lib : Library) : List ℕ :=
  (List.range lib.L).filter
    (fun t => lib.arity t = 0 && !(lib.input_var t))

/-- The per-step batch signals handed to every Prior: the (n, t) action
history plus the parent, sibling and dangling signal per sample. -/
structure BatchArgs (n t : ℕ) where
  actions : Fin n → Fin t → ℕ
  parent : Fin n → ℤ
  sibling : Fin n → ℕ
  dangling : Fin n → ℕ

/-- Row i of the action history as a list. -/
def rowActions {n t : ℕ} (b : BatchArgs n t) (i : Fin n) : List ℕ :=
  (List.finRange t).map (b.actions i)

/-- Number of entries of row that belong to tokens:
np.sum(np.isin(row, tokens)). -/
def countL (tokens row : List ℕ) : ℕ :=
  (row.filter (fun a => tokens.contains a)).length

/-- Membership-faithful model of np.intersect1d (only membership in the
result is consumed downstream, via np.isin). -/
def intersect1d (xs ys : List ℕ) : List ℕ :=
  xs.filter (fun x => ys.contains x)

/-- The relationship argument of RelationalConstraint. -/
inductive Relationship where
  | child | descendant | sibling | uchild
deriving DecidableEq

/-- RelationalConstraint.__call__, descendant branch: the ancestor mask is
computed by the external ancestors collaborator (dsr/subroutines.py),
treated per the spec as an opaque pure function, so it is a parameter. -/
def relationalDescendant (lib : Library) {n : ℕ} (targets : List ℕ)
    (ancestorMask : Fin n → Bool) : Mat n lib.L :=
  make_constraint n lib.L ancestorMask targets

/-- RelationalConstraint.__call__, child branch. -/
def relationalChild (lib : Library) {n t : ℕ} (targets effectors : List ℕ)
    (b : BatchArgs n t) : Mat n lib.L :=
  let adj_parents := effectors.map lib.parent_adjust
  make_constraint n lib.L
    (fun i => adj_parents.contains (b.parent i)) targets

/-- RelationalConstraint.__call__, sibling branch: two mask passes with
targets and effectors swapped, added together. -/
def relationalSiblingBranch (lib : Library) {n t : ℕ}
    (targets effectors : List ℕ) (b : BatchArgs n t) : Mat n lib.L :=
  matAdd
    (make_constraint n lib.L
      (fun i => effectors.contains (b.sibling i)) targets)
    (make_constraint n lib.L
      (fun i => targets.contains (b.sibling i)) effectors)

/-- RelationalConstraint.__call__, uchild branch: the mask is the union of
case 1 (parent is a unary effector, via parent_adjust) and case 2 (sibling
is a target and parent is an effector); the final call passes the list
[self.targets], so the whole target array is one fancy index. -/
def relationalUchild (lib : Library) {n t : ℕ} (targets effectors : List ℕ)
    (b : BatchArgs n t) : Option (Mat n lib.L) :=
  let unary_effectors := intersect1d effectors lib.unary_tokens
  let adj_unary_effectors := unary_effectors.map lib.parent_adjust
  let adj_effectors := effectors.map lib.parent_adjust
  let mask : Fin n → Bool := fun i =>
    adj_unary_effectors.contains (b.parent i) ||
      (targets.contains (b.sibling i) &&
        adj_effectors.contains (b.parent i))
  make_constraint_vec n lib.L mask [targets]

/-- RelationalConstraint.__call__ (prior.py lines 253-288), dispatching on
the relationship. -/
def relationalCall (lib : Library) {n t : ℕ} (targets effectors : List ℕ)
    (rel : Relationship) (ancestorMask : Fin n → Bool)
    (b : BatchArgs n t) : Option (Mat n lib.L) :=
  match rel with
  | .descendant => some (relationalDescendant lib targets ancestorMask)
  | .child => some (relationalChild lib targets effectors b)
  | .sibling => some (relationalSiblingBranch lib targets effectors b)
  | .uchild => relationalUchild lib targets effectors b

/-- InverseUnaryConstraint.__init__/__call__: one child RelationalConstraint
per (target, effector) pair in library.inverse_tokens, summed. -/
def inverseUnaryCall (lib : Library) {n t : ℕ} (b : BatchArgs n t) :
    Mat n lib.L :=
  (lib.inverse_tokens.map
      (fun pr => relationalChild lib [pr.1] [pr.2] b)).foldl
    matAdd (zeroMat n lib.L)

/-- The two assertion failures RepeatConstraint.__init__ can raise. -/
inductive RepeatError where
  | bothBoundsNone
  | minNotSupported
deriving DecidableEq

/-- The state a successfully constructed RepeatConstraint holds. -/
structure RepeatState where
  tokens : List ℕ
  minB : Option ℕ
  maxB : Option ℕ
deriving DecidableEq

/-- RepeatConstraint.__init__ (prior.py lines 398-420): first asserts that
at least one bound is given, then asserts that the minimum bound is absent
(minimum constraints are not yet supported). -/
def repeatInit (tokens : List ℕ) (minB maxB : Option ℕ) :
    Except RepeatError RepeatState :=
  if minB = none ∧ maxB = none then .error .bothBoundsNone
  else if minB ≠ none then .error .minNotSupported
  else .ok ⟨tokens, minB, maxB⟩

/-- RepeatConstraint.__call__ (prior.py lines 422-430): counts occurrences
of the constrained tokens per row; the min branch raises
NotImplementedError (none); the max branch forbids the tokens in rows
whose count has reached the maximum. -/
def repeatCall (st : RepeatState) (L : ℕ) {n t : ℕ} (b : BatchArgs n t) :
    Option (Mat n L) :=
  let counts : Fin n → ℕ := fun i => countL st.tokens (rowActions b i)
  let prior := zeroMat n L
  if st.minB.isSome then none
  else
    match st.maxB with
    | some m =>
        some (matAdd prior
          (make_constraint n L (fun i => decide (counts i ≥ m)) st.tokens))
    | none => some prior

/-- NoInputsConstraint.validate (prior.py lines 341-346). -/
def noInputsValidate (lib : Library) : Option String :=
  if lib.float_tokens.length = 0 then
    some "All terminal tokens are input variables, so all sequences will have an input variable."
  else none

/-- NoInputsConstraint.__call__ (prior.py lines 348-355): mask rows where
exactly one slot is dangling and no input token occurs in the history,
and forbid the float (non-input terminal) tokens there. -/
def noInputsCall (lib : Library) {n t : ℕ} (b : BatchArgs n t) :
    Mat n lib.L :=
  let mask : Fin n → Bool := fun i =>
    decide (b.dangling i = 1) &&
      decide (countL lib.input_tokens (rowActions b i) = 0)
  make_constraint n lib.L mask lib.float_tokens

/-- LengthConstraint.initial_prior (prior.py lines 468-472): a zero vector
with -inf written at every terminal token, regardless of the configured
bounds. -/
def lengthInitial (lib : Library) (minB maxB : Option ℕ) : Vec lib.L :=
  lib.terminal_tokens.foldl
    (fun p tk => fun j => if (j : ℕ) = tk then F.ninf else p j)
    (zeroVec lib.L)

/-- LengthConstraint.__call__ (prior.py lines 474-496).  i is the Python
int actions.shape[1] - 1 (current time); the max branch triggers once
i + 2 >= max // 2 and uses remaining = max - (i + 1); the min branch
forbids terminals where dangling == 1 while i + 2 < min. -/
def lengthCall (lib : Library) (minB maxB : Option ℕ) {n t : ℕ}
    (b : BatchArgs n t) : Mat n lib.L :=
  let i : ℤ := (t : ℤ) - 1
  let prior := zeroMat n lib.L
  let prior :=
    match maxB with
    | some mx =>
        if i + 2 ≥ ((mx / 2 : ℕ) : ℤ) then
          let remaining : ℤ := (mx : ℤ) - (i + 1)
          let prior := matAdd prior
            (make_constraint n lib.L
              (fun s => decide ((b.dangling s : ℤ) ≥ remaining - 1))
              lib.binary_tokens)
          matAdd prior
            (make_constraint n lib.L
              (fun s => decide ((b.dangling s : ℤ) = remaining))
              lib.unary_tokens)
        else prior
    | none => prior
  match minB with
  | some mn =>
      if i + 2 < (mn : ℤ) then
        matAdd prior
          (make_constraint n lib.L
            (fun s => decide (b.dangling s = 1)) lib.terminal_tokens)
      else prior
  | none => prior

/-- An abstract component Prior as JointPrior consumes it: its one-time
initial adjustment and its per-step call. -/
structure PriorImpl (L : ℕ) where
  initial : Vec L
  call : (n t : ℕ) → BatchArgs n t → Mat n L

/-- JointPrior.initial_prior (prior.py lines 96-100): a zero vector into
which each component initial prior is added in turn. -/
def jointInitial (L : ℕ) (priors : List (PriorImpl L)) : Vec L :=
  priors.foldl (fun acc p => vecAdd acc p.initial) (zeroVec L)

/-- JointPrior.__call__ (prior.py lines 102-109): one zero array per
component, each component output added into its own copy, then the copies
are summed (Python sum starts from scalar 0, which broadcasts) and a final
zero array is added. -/
def jointCall (L : ℕ) (priors : List (PriorImpl L)) (n t : ℕ)
    (b : BatchArgs n t) : Mat n L :=
  let zero_prior := zeroMat n L
  let ind_priors := priors.map (fun p => matAdd zero_prior (p.call n t b))
  matAdd (ind_priors.foldl matAdd (zeroMat n L)) zero_prior

/-- Python exceptions relevant to the factory and to BindingPrior. -/
inductive PyError where
  | tokenNotFound
  | fileNotFound
  | attributeError
  | assertionError
deriving DecidableEq

/-- The registered rule names of the factory prior_dict (prior.py lines
15-27). -/
def prior_dict_names : List String :=
  ["relational", "length", "repeat", "inverse", "trig", "const",
   "no_inputs", "soft_length", "uniform_arity", "seq_positions",
   "language_model"]

/-- One configuration entry handed to the factory: the popped on flag, an
identifier for the would-be Prior instance, and the outcome of
constructing-and-validating it (an uncaught exception, or the built
instance with its validate() message). -/
structure PriorEntry where
  onFlag : Bool
  id : ℕ
  result : Except PyError (Option String)

/-- The per-entry body of the factory loop (prior.py lines 37-60): a
disabled entry is skipped with the "Prior disabled." warning; an enabled
entry is constructed, a TokenNotFoundError is caught and recorded, any
other exception propagates, a validate() message drops the instance with
that warning, and a clean instance is appended. -/
def processEntry (acc : List ℕ × List String) (e : PriorEntry) :
    Except PyError (List ℕ × List String) :=
  if e.onFlag then
    match e.result with
    | .error .tokenNotFound =>
        .ok (acc.1, acc.2 ++ ["Uses Tokens not in the Library."])
    | .error err => .error err
    | .ok (some msg) => .ok (acc.1, acc.2 ++ [msg])
    | .ok none => .ok (acc.1 ++ [e.id], acc.2)
  else .ok (acc.1, acc.2 ++ ["Prior disabled."])

/-- make_prior (prior.py lines 12-69): iterate the configuration mapping;
an unregistered rule name fails the assert (aborting construction); each
entry list is processed by the loop body; the surviving instance ids and
the accumulated warnings are returned. -/
def makePrior (cfg : List (String × List PriorEntry)) :
    Except PyError (List ℕ × List String) :=
  cfg.foldlM
    (fun acc pr =>
      if prior_dict_names.contains pr.1 then pr.2.foldlM processEntry acc
      else .error .assertionError)
    ([], [])

/-- Whether a construct-and-validate outcome is a clean build. -/
def isOkNone : Except PyError (Option String) → Bool
  | .ok none => true
  | _ => false

/-- The ids an entry list contributes: enabled entries that build and
validate cleanly. -/
def keptEntries (es : List PriorEntry) : List ℕ :=
  (es.filter (fun e => e.onFlag && isOkNone e.result)).map (·.id)

/-- The warnings one entry produces. -/
def entryWarn (e : PriorEntry) : List String :=
  if e.onFlag then
    match e.result with
    | .error .tokenNotFound => ["Uses Tokens not in the Library."]
    | .error _ => []
    | .ok (some msg) => [msg]
    | .ok none => []
  else ["Prior disabled."]

/-- The warnings an entry list produces. -/
def warnEntries : List PriorEntry → List String
  | [] => []
  | e :: es => entryWarn e ++ warnEntries es

/-- The instance ids a whole configuration keeps. -/
def keptSpec : List (String × List PriorEntry) → List ℕ
  | [] => []
  | pr :: rest => keptEntries pr.2 ++ keptSpec rest

/-- The warnings a whole configuration accumulates. -/
def warnSpec : List (String × List PriorEntry) → List String
  | [] => []
  | pr :: rest => warnEntries pr.2 ++ warnSpec rest

/-- An entry that cannot propagate an uncaught exception: it is disabled,
or its construction succeeded, or it raised the caught
TokenNotFoundError. -/
def entryNoRaise (e : PriorEntry) : Bool :=
  !e.onFlag ||
    (match e.result with
     | .error .tokenNotFound => true
     | .error _ => false
     | .ok _ => true)

/-- A configuration on which the factory cannot abort: every rule name is
registered and no enabled entry raises an uncaught exception. -/
def goodCfg (cfg : List (String × List PriorEntry)) : Bool :=
  cfg.all (fun pr =>
    prior_dict_names.contains pr.1 && pr.2.all entryNoRaise)

/-- The YAML document BindingPrior reads: the master sequence and the
AllowedMutations triples (1-based position, wild-type, allowed symbols). -/
structure BindingConfig where
  master_sequence : String
  allowed_mutations : List (ℕ × ℕ × String)
deriving DecidableEq

/-- The state a successfully constructed BindingPrior holds. -/
structure BindingState where
  master_sequence : String
  allowed_mutations : List (ℕ × String)
deriving DecidableEq

/-- BindingPrior.__init__ (prior.py lines 584-600): the open of menu_file
is wrapped in try/except FileNotFoundError whose handler only prints; when
the file is absent self.config is therefore never bound, and the
unconditional self.config access on the next line raises AttributeError.
When the file exists, the master sequence and the 0-based allowed-mutation
map are stored. -/
def bindingPriorInit (fs : String → Option BindingConfig)
    (menu_file : String) : Except PyError BindingState :=
  match fs menu_file with
  | none => .error .attributeError
  | some cfg =>
      .ok { master_sequence := cfg.master_sequence,
            allowed_mutations :=
              cfg.allowed_mutations.map (fun p => (p.1 - 1, p.2.2)) }

/-- SequencePositionsConstraint.__init__ (prior.py lines 606-622): runs
BindingPrior.__init__ first, then asserts the mode is full or short. -/
def seqPositionsInit (fs : String → Option BindingConfig)
    (menu_file : String) (mode : String) : Except PyError BindingState := do
  let st ← bindingPriorInit fs menu_file
  if mode == "full" || mode == "short" then .ok st
  else .error .assertionError

/-- The construct-and-validate outcome of a seq_positions factory entry
(SequencePositionsConstraint defines no validate, so a successful build
validates clean). -/
def seqPositionsResult (fs : String → Option BindingConfig)
    (menu_file : String) (mode : String) : Except PyError (Option String) :=
  (seqPositionsInit fs menu_file mode).map (fun _ => none)

/-- A file system with no files. -/
def fsMissing : String → Option BindingConfig := fun _ => none

/-- A value a hard Constraint may emit: exactly 0.0 or -inf. -/
def isHard (x : F) : Prop := x = 0 ∨ x = F.ninf

/-- A small concrete Library: token 0 a terminal input variable, token 1 a
terminal constant (float token), token 2 a unary operator. -/
def lib8 : Library :=
  { L := 3,
    arity := fun tk => if tk = 2 then 1 else 0,
    input_var := fun tk => tk = 0,
    parent_adjust := fun tk => (tk : ℤ),
    inverse_tokens := [] }

/-- A 1-sample batch after one step: the history is the unary token, one
slot dangles, no input variable has appeared. -/
def b8 : BatchArgs 1 1 :=
  { actions := fun _ _ => 2, parent := fun _ => 0, sibling := fun _ => 0,
    dangling := fun _ => 1 }

/-- A 1-sample batch after four steps with two dangling slots. -/
def b3 : BatchArgs 1 4 :=
  { actions := fun _ _ => 2, parent := fun _ => 0, sibling := fun _ => 0,
    dangling := fun _ => 2 }

/-- A concrete Library with two terminals (ids 0 and 3) and two unary
operators (ids 1 and 2). -/
def lib4 : Library :=
  { L := 4,
    arity := fun tk => if tk = 1 ∨ tk = 2 then 1 else 0,
    input_var := fun _ => false,
    parent_adjust := fun tk => (tk : ℤ),
    inverse_tokens := [] }

/-- A 2-sample batch in which both samples have the unary token 1 as their
parent signal (its parent-adjusted id under lib4 is 1). -/
def b4 : BatchArgs 2 1 :=
  { actions := fun _ _ => 0, parent := fun _ => 1, sibling := fun _ => 0,
    dangling := fun _ => 1 }

/-- A 1-sample batch whose history holds token 1 twice. -/
def bRep : BatchArgs 1 2 :=
  { actions := fun _ _ => 1, parent := fun _ => 0, sibling := fun _ => 0,
    dangling := fun _ => 1 }

/-- The array RepeatConstraint.__call__ returns on bRep with max 1 over
token 1. -/
def repM : Mat 1 3 :=
  matAdd (zeroMat 1 3)
    (make_constraint 1 3
      (fun i => decide (countL [1] (rowActions bRep i) ≥ 1)) [1])

/-- A concrete component Prior emitting finite values. -/
def priW1 : PriorImpl 1 :=
  { initial := fun _ => F.fin 1, call := fun _ _ _ => fun _ _ => F.fin 2 }

/-- A second concrete component Prior, emitting -inf from its call. -/
def priW2 : PriorImpl 1 :=
  { initial := fun _ => F.fin 3, call := fun _ _ _ => fun _ _ => F.ninf }

/-- A trivial 1-sample batch. -/
def bW : BatchArgs 1 1 :=
  { actions := fun _ _ => 0, parent := fun _ => 0, sibling := fun _ => 0,
    dangling := fun _ => 0 }

/-- A concrete factory configuration: one clean length rule, one rule whose
validate() fails, one rule whose construction raises TokenNotFoundError,
and one disabled rule. -/
def cfgEx : List (String × List PriorEntry) :=
  [("length",
    [⟨true, 0, .ok none⟩,
     ⟨true, 1, .ok (some "invalid")⟩,
     ⟨true, 2, .error .tokenNotFound⟩,
     ⟨false, 3, .ok none⟩])]

-- THEOREMS-MARKER

theorem foldl_assignMaskCol_entry {n L : ℕ} (mask : Fin n → Bool)
    (tokens : List ℕ) (p : Mat n L) (i : Fin n) (j : Fin L) :
    (tokens.foldl (fun q t => assignMaskCol q mask t) p) i j =
      if mask i = true ∧ (j : ℕ) ∈ tokens then F.ninf else p i j := by
  induction tokens generalizing p with
  | nil => simp
  | cons t ts ih =>
      rw [List.foldl_cons, ih]
      by_cases hm : mask i = true
      · by_cases hjt : (j : ℕ) = t
        · simp [assignMaskCol, hm, hjt]
        · by_cases hjs : (j : ℕ) ∈ ts <;> simp [assignMaskCol, hm, hjt, hjs]
      · simp [assignMaskCol, hm]

theorem make_constraint_entry {n L : ℕ} (mask : Fin n → Bool)
    (tokens : List ℕ) (i : Fin n) (j : Fin L) :
    make_constraint n L mask tokens i j =
      if mask i = true ∧ (j : ℕ) ∈ tokens then F.ninf else 0 := by
  rw [make_constraint, foldl_assignMaskCol_entry]
  rfl

/-- Claim C1: Constraint.make_constraint, on a boolean mask m over the batch
and a list of token ids T, returns the (n, L) array whose entry at (row,
column) is -inf exactly when m is true at the row and the column is in T,
and 0.0 at every other entry. -/
theorem claim1_make_constraint (n L : ℕ) (mask : Fin n → Bool)
    (tokens : List ℕ) (i : Fin n) (j : Fin L) :
    make_constraint n L mask tokens i j =
      if mask i = true ∧ (j : ℕ) ∈ tokens then F.ninf else 0 :=
  make_constraint_entry mask tokens i j


theorem matAdd_entry {n L : ℕ} (p q : Mat n L) (i : Fin n) (j : Fin L) :
    matAdd p q i j = p i j + q i j := rfl

theorem foldl_matAdd_entry {n L : ℕ} (l : List (Mat n L)) (z : Mat n L)
    (i : Fin n) (j : Fin L) :
    (l.foldl matAdd z) i j = z i j + (l.map (fun M => M i j)).sum := by
  induction l generalizing z with
  | nil => simp
  | cons M l ih =>
      rw [List.foldl_cons, ih]
      simp [matAdd, add_assoc]

theorem jointCall_entry (L : ℕ) (priors : List (PriorImpl L)) (n t : ℕ)
    (b : BatchArgs n t) (i : Fin n) (j : Fin L) :
    jointCall L priors n t b i j =
      (priors.map (fun p => p.call n t b i j)).sum := by
  have h : jointCall L priors n t b i j =
      (matAdd ((priors.map (fun p => matAdd (zeroMat n L) (p.call n t b))).foldl
        matAdd (zeroMat n L)) (zeroMat n L)) i j := rfl
  rw [h, matAdd_entry, foldl_matAdd_entry, List.map_map]
  have hmap : ((fun M : Mat n L => M i j) ∘
      fun p : PriorImpl L => matAdd (zeroMat n L) (p.call n t b)) =
      fun p : PriorImpl L => p.call n t b i j := by
    funext p
    simp [Function.comp, matAdd, zeroMat]
  rw [hmap]
  simp [zeroMat]

theorem jointInitial_entry (L : ℕ) (priors : List (PriorImpl L)) (j : Fin L) :
    jointInitial L priors j = (priors.map (fun p => p.initial j)).sum := by
  suffices h : ∀ z : Vec L,
      (priors.foldl (fun acc p => vecAdd acc p.initial) z) j =
        z j + (priors.map (fun p => p.initial j)).sum by
    have h0 := h (zeroVec L)
    rw [jointInitial, h0]
    simp [zeroVec]
  induction priors with
  | nil => intro z; simp
  | cons p ps ih =>
      intro z
      rw [List.foldl_cons, ih]
      simp [vecAdd, add_assoc]

/-- Claim C2: JointPrior.__call__ returns exactly the elementwise sum of
the component calls, JointPrior.initial_prior returns exactly the
elementwise sum of the component initial priors, and permuting the list
of component Priors changes neither result. -/
theorem claim2_jointPrior_additive (L : ℕ)
    (priors priors' : List (PriorImpl L)) (n t : ℕ) (b : BatchArgs n t)
    (hperm : priors.Perm priors') :
    (∀ i j, jointCall L priors n t b i j =
      (priors.map (fun p => p.call n t b i j)).sum) ∧
    (∀ j, jointInitial L priors j =
      (priors.map (fun p => p.initial j)).sum) ∧
    jointCall L priors n t b = jointCall L priors' n t b ∧
    jointInitial L priors = jointInitial L priors' := by
  refine ⟨fun i j => jointCall_entry L priors n t b i j,
          fun j => jointInitial_entry L priors j, ?_, ?_⟩
  · funext i j
    rw [jointCall_entry, jointCall_entry]
    exact (hperm.map _).sum_eq
  · funext j
    rw [jointInitial_entry, jointInitial_entry]
    exact (hperm.map _).sum_eq

/-- Witness for C2 at two concrete component Priors and a concrete batch. -/
theorem claim2_witness :
    ([priW1, priW2].Perm [priW2, priW1]) ∧
    jointCall 1 [priW1, priW2] 1 1 bW = jointCall 1 [priW2, priW1] 1 1 bW ∧
    jointInitial 1 [priW1, priW2] = jointInitial 1 [priW2, priW1] := by
  have hp : [priW1, priW2].Perm [priW2, priW1] := List.Perm.swap priW2 priW1 []
  have h := claim2_jointPrior_additive 1 [priW1, priW2] [priW2, priW1] 1 1 bW hp
  exact ⟨hp, h.2.2.1, h.2.2.2⟩

theorem mem_terminal_iff (lib : Library) (j : ℕ) :
    j ∈ lib.terminal_tokens ↔ j < lib.L ∧ lib.arity j = 0 := by
  simp [Library.terminal_tokens, List.mem_filter, List.mem_range]

theorem mem_unary_iff (lib : Library) (j : ℕ) :
    j ∈ lib.unary_tokens ↔ j < lib.L ∧ lib.arity j = 1 := by
  simp [Library.unary_tokens, List.mem_filter, List.mem_range]

theorem mem_binary_iff (lib : Library) (j : ℕ) :
    j ∈ lib.binary_tokens ↔ j < lib.L ∧ lib.arity j = 2 := by
  simp [Library.binary_tokens, List.mem_filter, List.mem_range]

theorem mem_float_iff (lib : Library) (j : ℕ) :
    j ∈ lib.float_tokens ↔
      j < lib.L ∧ lib.arity j = 0 ∧ lib.input_var j = false := by
  simp [Library.float_tokens, List.mem_filter, List.mem_range]

theorem lengthInitial_entry (lib : Library) (minB maxB : Option ℕ)
    (j : Fin lib.L) :
    lengthInitial lib minB maxB j =
      if (j : ℕ) ∈ lib.terminal_tokens then F.ninf else 0 := by
  rw [lengthInitial]
  suffices aux : ∀ (ts : List ℕ) (z : Vec lib.L),
      (ts.foldl
        (fun p tk => fun jj : Fin lib.L =>
          if (jj : ℕ) = tk then F.ninf else p jj) z) j
        = if (j : ℕ) ∈ ts then F.ninf else z j by
    refine (aux lib.terminal_tokens (zeroVec lib.L)).trans ?_
    split <;> rfl
  intro ts
  induction ts with
  | nil => intro z; simp
  | cons tk ts ih =>
      intro z
      rw [List.foldl_cons, ih]
      by_cases hjt : (j : ℕ) = tk
      · simp [hjt]
      · by_cases hjs : (j : ℕ) ∈ ts <;> simp [hjt, hjs]

/-- Counterexample for C7: with no minimum configured (only max_=5), the
claim says terminal tokens stay at 0.0 in the initial prior, but
LengthConstraint.initial_prior writes -inf on the terminal token 0. -/
theorem claim7_counterexample :
    (0 : ℕ) ∈ lib8.terminal_tokens ∧
    lengthInitial lib8 none (some 5) ⟨0, by decide⟩ = F.ninf := by
  decide

/-- Claim C7 amended: LengthConstraint.initial_prior assigns -inf to every
terminal token and 0.0 elsewhere unconditionally, whatever bounds are
configured (also when only a maximum is set). -/
theorem claim7_length_initial_amended (lib : Library) (minB maxB : Option ℕ)
    (j : Fin lib.L) :
    lengthInitial lib minB maxB j =
      if (j : ℕ) ∈ lib.terminal_tokens then F.ninf else 0 :=
  lengthInitial_entry lib minB maxB j

/-- Counterexample for C3: max_=7, current length 4 (so the midpoint
trigger is past), dangling = 2.  The claim computes
remaining = max - current_length - 1 = 2 and demands -inf on unary tokens
in rows with dangling = remaining; the code uses remaining = max - 4 = 3
and leaves the unary token at 0.0 here. -/
theorem claim3_counterexample :
    ((4 : ℕ) + 1 ≥ 7 / 2) ∧
    (b3.dangling ⟨0, by decide⟩ : ℤ) = (7 : ℤ) - 4 - 1 ∧
    (2 : ℕ) ∈ lib8.unary_tokens ∧
    lengthCall lib8 none (some 7) b3 ⟨0, by decide⟩ ⟨2, by decide⟩ =
      F.fin 0 := by
  decide

/-- Claim C3 amended: with a maximum m configured (and no minimum), once
t + 1 >= m / 2 the step prior is -inf exactly at binary tokens of rows
with dangling >= remaining - 1 and at unary tokens of rows with
dangling = remaining, where remaining = m - t (t the current length), and
0.0 everywhere else; before the trigger no masking occurs. -/
theorem claim3_length_max_amended (lib : Library) (m n t : ℕ)
    (b : BatchArgs n t) (i : Fin n) (j : Fin lib.L) :
    lengthCall lib none (some m) b i j =
      if ((t : ℤ) + 1 ≥ ((m / 2 : ℕ) : ℤ)) ∧
         (((b.dangling i : ℤ) ≥ (m : ℤ) - t - 1 ∧ (j : ℕ) ∈ lib.binary_tokens) ∨
          ((b.dangling i : ℤ) = (m : ℤ) - t ∧ (j : ℕ) ∈ lib.unary_tokens))
      then F.ninf else 0 := by
  have hmain : lengthCall lib none (some m) b =
      (if ((t : ℤ) - 1) + 2 ≥ ((m / 2 : ℕ) : ℤ) then
        matAdd
          (matAdd (zeroMat n lib.L)
            (make_constraint n lib.L
              (fun s => decide
                ((b.dangling s : ℤ) ≥ (m : ℤ) - (((t : ℤ) - 1) + 1) - 1))
              lib.binary_tokens))
          (make_constraint n lib.L
            (fun s => decide
              ((b.dangling s : ℤ) = (m : ℤ) - (((t : ℤ) - 1) + 1)))
            lib.unary_tokens)
      else zeroMat n lib.L) := rfl
  rw [hmain]
  by_cases htrig : ((t : ℤ) - 1) + 2 ≥ ((m / 2 : ℕ) : ℤ)
  · rw [if_pos htrig, matAdd_entry, matAdd_entry, make_constraint_entry,
      make_constraint_entry]
    have htrig' : (t : ℤ) + 1 ≥ ((m / 2 : ℕ) : ℤ) := by omega
    have e1 : (decide ((b.dangling i : ℤ) ≥
          (m : ℤ) - (((t : ℤ) - 1) + 1) - 1) = true ∧
          (j : ℕ) ∈ lib.binary_tokens) ↔
        ((b.dangling i : ℤ) ≥ (m : ℤ) - t - 1 ∧
          (j : ℕ) ∈ lib.binary_tokens) := by
      rw [decide_eq_true_eq]
      constructor <;> rintro ⟨h1, h2⟩ <;> exact ⟨by omega, h2⟩
    have e2 : (decide ((b.dangling i : ℤ) =
          (m : ℤ) - (((t : ℤ) - 1) + 1)) = true ∧
          (j : ℕ) ∈ lib.unary_tokens) ↔
        ((b.dangling i : ℤ) = (m : ℤ) - t ∧
          (j : ℕ) ∈ lib.unary_tokens) := by
      rw [decide_eq_true_eq]
      constructor <;> rintro ⟨h1, h2⟩ <;> exact ⟨by omega, h2⟩
    rw [if_congr e1 rfl rfl, if_congr e2 rfl rfl,
      if_congr (and_iff_right htrig') rfl rfl]
    by_cases hA : (b.dangling i : ℤ) ≥ (m : ℤ) - t - 1 ∧
        (j : ℕ) ∈ lib.binary_tokens
    · have hB : ¬ ((b.dangling i : ℤ) = (m : ℤ) - t ∧
          (j : ℕ) ∈ lib.unary_tokens) := by
        rintro ⟨_, hu⟩
        rw [mem_unary_iff] at hu
        have hb := hA.2
        rw [mem_binary_iff] at hb
        omega
      rw [if_pos hA, if_neg hB, if_pos (Or.inl hA)]
      rfl
    · by_cases hB : (b.dangling i : ℤ) = (m : ℤ) - t ∧
          (j : ℕ) ∈ lib.unary_tokens
      · rw [if_neg hA, if_pos hB, if_pos (Or.inr hB)]
        rfl
      · rw [if_neg hA, if_neg hB, if_neg ?_]
        · rfl
        · rintro (h | h)
          · exact hA h
          · exact hB h
  · rw [if_neg htrig]
    rw [if_neg ?_]
    · rfl
    · rintro ⟨h1, _⟩
      exact htrig (by omega)

theorem float_tokens_eq_nil_iff (lib : Library) :
    lib.float_tokens = [] ↔
      ∀ tk ∈ lib.terminal_tokens, lib.input_var tk = true := by
  constructor
  · intro hnil tk htk
    by_contra hni
    have hm : tk ∈ lib.float_tokens := by
      rw [mem_float_iff]
      rw [mem_terminal_iff] at htk
      exact ⟨htk.1, htk.2, by simpa using hni⟩
    rw [hnil] at hm
    exact absurd hm (List.not_mem_nil tk)
  · intro hall
    rw [List.eq_nil_iff_forall_not_mem]
    intro tk hm
    rw [mem_float_iff] at hm
    have hin : lib.input_var tk = true :=
      hall tk (by rw [mem_terminal_iff]; exact ⟨hm.1, hm.2.1⟩)
    simp [hin] at hm

/-- Counterexample for C8: sample 0 has exactly one dangling slot and no
input variable in its history, and token 0 is a terminal (an input
variable), yet NoInputsConstraint.__call__ leaves its column at 0.0 (only
the non-input float tokens are forbidden). -/
theorem claim8_counterexample :
    b8.dangling ⟨0, by decide⟩ = 1 ∧
    countL lib8.input_tokens (rowActions b8 ⟨0, by decide⟩) = 0 ∧
    (0 : ℕ) ∈ lib8.terminal_tokens ∧
    noInputsCall lib8 b8 ⟨0, by decide⟩ ⟨0, by decide⟩ = F.fin 0 := by
  decide

/-- Claim C8 amended: NoInputsConstraint.__call__ is -inf exactly at the
float (non-input terminal) token columns of rows with exactly one
dangling slot and no input variable in the history, 0.0 elsewhere; and
validate() fails exactly when every terminal token is an input
variable. -/
theorem claim8_no_inputs_amended :
    (∀ (lib : Library) (n t : ℕ) (b : BatchArgs n t) (i : Fin n)
        (j : Fin lib.L),
      noInputsCall lib b i j =
        if (b.dangling i = 1 ∧ countL lib.input_tokens (rowActions b i) = 0) ∧
            (j : ℕ) ∈ lib.float_tokens
        then F.ninf else 0) ∧
    (∀ lib : Library, noInputsValidate lib ≠ none ↔
      ∀ tk ∈ lib.terminal_tokens, lib.input_var tk = true) := by
  constructor
  · intro lib n t b i j
    have h : noInputsCall lib b i j =
        make_constraint n lib.L
          (fun s => decide (b.dangling s = 1) &&
            decide (countL lib.input_tokens (rowActions b s) = 0))
          lib.float_tokens i j := rfl
    rw [h, make_constraint_entry]
    refine if_congr ?_ rfl rfl
    rw [Bool.and_eq_true, decide_eq_true_eq, decide_eq_true_eq]
  · intro lib
    rw [noInputsValidate]
    by_cases hf : lib.float_tokens.length = 0
    · rw [if_pos hf]
      have hnil : lib.float_tokens = [] := List.length_eq_zero.mp hf
      exact iff_of_true (by simp) ((float_tokens_eq_nil_iff lib).mp hnil)
    · rw [if_neg hf]
      have hne : ¬ lib.float_tokens = [] := fun h => hf (by rw [h]; rfl)
      exact iff_of_false (by simp)
        (fun h => hne ((float_tokens_eq_nil_iff lib).mpr h))

/-- Witness for C8 at the concrete library lib8 and batch b8: the float
token column 1 is -inf in the masked row. -/
theorem claim8_witness :
    noInputsCall lib8 b8 ⟨0, by decide⟩ ⟨1, by decide⟩ = F.ninf := by
  have h := claim8_no_inputs_amended.1 lib8 1 1 b8 ⟨0, by decide⟩
    ⟨1, by decide⟩
  rw [h]
  decide

/-- Claim C5: RepeatConstraint with min_ set and max_ unset fails at
construction with the not-implemented assertion; with only max_ set, every
row whose running count of the constrained tokens has reached max_ gets
-inf on those tokens; and the running count never decreases as the
sequence extends. -/
theorem claim5_repeat :
    (∀ (tokens : List ℕ) (m : ℕ),
      repeatInit tokens (some m) none = .error .minNotSupported) ∧
    (∀ (tokens : List ℕ) (m L n t : ℕ) (b : BatchArgs n t) (M : Mat n L),
      repeatCall ⟨tokens, none, some m⟩ L b = some M →
      ∀ (i : Fin n) (j : Fin L),
        m ≤ countL tokens (rowActions b i) → (j : ℕ) ∈ tokens →
        M i j = F.ninf) ∧
    (∀ (tokens row ext : List ℕ),
      countL tokens row ≤ countL tokens (row ++ ext)) := by
  refine ⟨fun tokens m => rfl, ?_, ?_⟩
  · intro tokens m L n t b M hM i j hcount hj
    have hred : repeatCall ⟨tokens, none, some m⟩ L b =
        some (matAdd (zeroMat n L)
          (make_constraint n L
            (fun s => decide (countL tokens (rowActions b s) ≥ m))
            tokens)) := rfl
    rw [hred] at hM
    injection hM with h
    rw [← h, matAdd_entry, make_constraint_entry,
      if_pos ⟨decide_eq_true hcount, hj⟩]
    rfl
  · intro tokens row ext
    rw [countL, countL, List.filter_append, List.length_append]
    omega

/-- Witness for C5: constructing with min_=1 fails; on the concrete batch
bRep, token 1 has appeared twice, count 2 >= max 1, so its column is
-inf. -/
theorem claim5_witness :
    repeatInit [1] (some 1) none = .error .minNotSupported ∧
    repeatCall ⟨[1], none, some 1⟩ 3 bRep = some repM ∧
    1 ≤ countL [1] (rowActions bRep ⟨0, by decide⟩) ∧
    repM ⟨0, by decide⟩ ⟨1, by decide⟩ = F.ninf := by
  refine ⟨claim5_repeat.1 [1] 1, rfl, by decide, ?_⟩
  exact claim5_repeat.2.1 [1] 1 3 1 2 bRep repM rfl ⟨0, by decide⟩
    ⟨1, by decide⟩ (by decide) (by decide)

/-- Failing input for C4: a uchild RelationalConstraint with two targets
(0 and 3) and the unary effector 1, on a batch whose two rows both carry
the parent-adjusted id of the effector (so case (a) of the mask holds for
both rows).  The claim demands -inf on both target columns of both rows;
the code's prior[mask, [targets]] pairs the two masked rows with the two
targets diagonally, leaving (row 0, column 3) and (row 1, column 0) at
0.0. -/
theorem claim4_uchild_failing_input :
    lib4.parent_adjust 1 = 1 ∧
    (1 : ℕ) ∈ lib4.unary_tokens ∧
    b4.parent ⟨0, by decide⟩ = 1 ∧
    b4.parent ⟨1, by decide⟩ = 1 ∧
    (relationalCall lib4 [0, 3] [1] .uchild (fun _ => false) b4).map
      (fun M =>
        (M ⟨0, by decide⟩ ⟨0, by decide⟩, M ⟨0, by decide⟩ ⟨3, by decide⟩,
         M ⟨1, by decide⟩ ⟨0, by decide⟩, M ⟨1, by decide⟩ ⟨3, by decide⟩)) =
      some (F.ninf, F.fin 0, F.fin 0, F.ninf) := by
  decide

/-- Failing input for C9: when the menu file does not exist, the
FileNotFoundError is caught (and only printed), after which the
unconditional self.config access in BindingPrior.__init__ raises an
AttributeError; make_prior catches only TokenNotFoundError, so the
factory run aborts with that error rather than dropping the rule and
continuing. -/
theorem claim9_binding_abort :
    bindingPriorInit fsMissing "menu.yaml" = .error .attributeError ∧
    makePrior [("seq_positions",
      [⟨true, 0, seqPositionsResult fsMissing "menu.yaml" "full"⟩])] =
      .error .attributeError :=
  ⟨rfl, rfl⟩

theorem foldlM_processEntry (es : List PriorEntry) :
    ∀ (k : List ℕ) (w : List String), es.all entryNoRaise = true →
    es.foldlM processEntry (k, w) =
      .ok (k ++ keptEntries es, w ++ warnEntries es) := by
  induction es with
  | nil =>
      intro k w _
      show (Except.ok (k, w) : Except PyError (List ℕ × List String)) = _
      simp [keptEntries, warnEntries]
  | cons e es ih =>
      intro k w h
      rw [List.all_cons, Bool.and_eq_true] at h
      obtain ⟨he, hes⟩ := h
      rw [List.foldlM_cons]
      rcases e with ⟨eon, eid, eres⟩
      cases eon with
      | false =>
          have hp : processEntry (k, w) ⟨false, eid, eres⟩ =
              .ok (k, w ++ ["Prior disabled."]) := rfl
          rw [hp]
          have hb : ((Except.ok (k, w ++ ["Prior disabled."]) :
                Except PyError (List ℕ × List String)) >>=
              fun acc => es.foldlM processEntry acc) =
              es.foldlM processEntry (k, w ++ ["Prior disabled."]) := rfl
          rw [hb, ih _ _ hes]
          simp [keptEntries, warnEntries, entryWarn, List.filter_cons]
      | true =>
          cases eres with
          | error err =>
              cases err with
              | tokenNotFound =>
                  have hp : processEntry (k, w)
                      ⟨true, eid, .error .tokenNotFound⟩ =
                      .ok (k, w ++ ["Uses Tokens not in the Library."]) := rfl
                  rw [hp]
                  have hb : ((Except.ok
                        (k, w ++ ["Uses Tokens not in the Library."]) :
                        Except PyError (List ℕ × List String)) >>=
                      fun acc => es.foldlM processEntry acc) =
                      es.foldlM processEntry
                        (k, w ++ ["Uses Tokens not in the Library."]) := rfl
                  rw [hb, ih _ _ hes]
                  simp [keptEntries, warnEntries, entryWarn, isOkNone,
                    List.filter_cons]
              | fileNotFound => simp [entryNoRaise] at he
              | attributeError => simp [entryNoRaise] at he
              | assertionError => simp [entryNoRaise] at he
          | ok v =>
              cases v with
              | none =>
                  have hp : processEntry (k, w) ⟨true, eid, .ok none⟩ =
                      .ok (k ++ [eid], w) := rfl
                  rw [hp]
                  have hb : ((Except.ok (k ++ [eid], w) :
                        Except PyError (List ℕ × List String)) >>=
                      fun acc => es.foldlM processEntry acc) =
                      es.foldlM processEntry (k ++ [eid], w) := rfl
                  rw [hb, ih _ _ hes]
                  simp [keptEntries, warnEntries, entryWarn, isOkNone,
                    List.filter_cons]
              | some msg =>
                  have hp : processEntry (k, w) ⟨true, eid, .ok (some msg)⟩ =
                      .ok (k, w ++ [msg]) := rfl
                  rw [hp]
                  have hb : ((Except.ok (k, w ++ [msg]) :
                        Except PyError (List ℕ × List String)) >>=
                      fun acc => es.foldlM processEntry acc) =
                      es.foldlM processEntry (k, w ++ [msg]) := rfl
                  rw [hb, ih _ _ hes]
                  simp [keptEntries, warnEntries, entryWarn, isOkNone,
                    List.filter_cons]

theorem foldlM_cfg (cfg : List (String × List PriorEntry)) :
    ∀ (k : List ℕ) (w : List String), goodCfg cfg = true →
    cfg.foldlM
      (fun acc pr =>
        if prior_dict_names.contains pr.1 then pr.2.foldlM processEntry acc
        else .error .assertionError)
      (k, w) = .ok (k ++ keptSpec cfg, w ++ warnSpec cfg) := by
  induction cfg with
  | nil =>
      intro k w _
      show (Except.ok (k, w) : Except PyError (List ℕ × List String)) = _
      simp [keptSpec, warnSpec]
  | cons pr rest ih =>
      intro k w h
      rw [goodCfg, List.all_cons, Bool.and_eq_true] at h
      obtain ⟨hpr, hrest⟩ := h
      rw [Bool.and_eq_true] at hpr
      obtain ⟨hname, hentries⟩ := hpr
      rw [List.foldlM_cons, if_pos hname, foldlM_processEntry pr.2 k w hentries]
      have hb : ((Except.ok (k ++ keptEntries pr.2, w ++ warnEntries pr.2) :
            Except PyError (List ℕ × List String)) >>=
          fun acc => rest.foldlM
            (fun acc pr =>
              if prior_dict_names.contains pr.1 then
                pr.2.foldlM processEntry acc
              else .error .assertionError) acc) =
          rest.foldlM
            (fun acc pr =>
              if prior_dict_names.contains pr.1 then
                pr.2.foldlM processEntry acc
              else .error .assertionError)
            (k ++ keptEntries pr.2, w ++ warnEntries pr.2) := rfl
      rw [hb, ih _ _ hrest]
      simp [keptSpec, warnSpec, List.append_assoc]

theorem names_of_ok (cfg : List (String × List PriorEntry)) :
    ∀ (acc : List ℕ × List String) (r : List ℕ × List String),
    cfg.foldlM
      (fun acc pr =>
        if prior_dict_names.contains pr.1 then pr.2.foldlM processEntry acc
        else .error .assertionError)
      acc = .ok r →
    ∀ pr ∈ cfg, prior_dict_names.contains pr.1 = true := by
  induction cfg with
  | nil => intro acc r _ pr hm; exact absurd hm (List.not_mem_nil pr)
  | cons q rest ih =>
      intro acc r h pr hm
      rw [List.foldlM_cons] at h
      by_cases hq : prior_dict_names.contains q.1 = true
      · rw [if_pos hq] at h
        rcases hstep : q.2.foldlM processEntry acc with e | acc'
        · rw [hstep] at h
          have hred : ((Except.error e :
                Except PyError (List ℕ × List String)) >>=
              fun a => rest.foldlM
                (fun acc pr =>
                  if prior_dict_names.contains pr.1 then
                    pr.2.foldlM processEntry acc
                  else .error .assertionError) a) =
              (Except.error e : Except PyError (List ℕ × List String)) := rfl
          rw [hred] at h
          exact Except.noConfusion h
        · rw [hstep] at h
          have hred : ((Except.ok acc' :
                Except PyError (List ℕ × List String)) >>=
              fun a => rest.foldlM
                (fun acc pr =>
                  if prior_dict_names.contains pr.1 then
                    pr.2.foldlM processEntry acc
                  else .error .assertionError) a) =
              rest.foldlM
                (fun acc pr =>
                  if prior_dict_names.contains pr.1 then
                    pr.2.foldlM processEntry acc
                  else .error .assertionError) acc' := rfl
          rw [hred] at h
          rcases List.mem_cons.mp hm with heq | hmem
          · rw [heq]; exact hq
          · exact ih acc' r h pr hmem
      · rw [if_neg hq] at h
        exact Except.noConfusion h

/-- Claim C6: in make_prior, an unregistered rule name aborts construction
with an error; a disabled entry is skipped (its construction outcome is
never consulted) with only the disabled diagnostic recorded; and on a
configuration whose rules are all registered and raise nothing uncaught,
construction always succeeds, dropping exactly the entries that failed to
build or validate while recording their diagnostics. -/
theorem claim6_factory :
    (∀ (cfg : List (String × List PriorEntry)) (nm : String)
        (es : List PriorEntry), (nm, es) ∈ cfg →
      prior_dict_names.contains nm = false →
      ∃ err, makePrior cfg = .error err) ∧
    (∀ (acc : List ℕ × List String) (idv : ℕ)
        (r1 r2 : Except PyError (Option String)),
      processEntry acc ⟨false, idv, r1⟩ = processEntry acc ⟨false, idv, r2⟩ ∧
      processEntry acc ⟨false, idv, r1⟩ =
        .ok (acc.1, acc.2 ++ ["Prior disabled."])) ∧
    (∀ cfg : List (String × List PriorEntry), goodCfg cfg = true →
      makePrior cfg = .ok (keptSpec cfg, warnSpec cfg)) := by
  refine ⟨?_, fun acc idv r1 r2 => ⟨rfl, rfl⟩, ?_⟩
  · intro cfg nm es hm hname
    rcases hval : makePrior cfg with err | r
    · exact ⟨err, rfl⟩
    · have hreg := names_of_ok cfg ([], []) r hval (nm, es) hm
      rw [hname] at hreg
      exact absurd hreg (by decide)
  · intro cfg h
    rw [makePrior, foldlM_cfg cfg [] [] h]
    simp

/-- Witness for C6: an unregistered name aborts; a disabled entry is
skipped; the concrete configuration cfgEx builds, keeping only the clean
rule. -/
theorem claim6_witness :
    (∃ err, makePrior [("bogus", [])] = .error err) ∧
    processEntry ([], []) ⟨false, 7, .error .fileNotFound⟩ =
      .ok ([], ["Prior disabled."]) ∧
    goodCfg cfgEx = true ∧
    makePrior cfgEx = .ok (keptSpec cfgEx, warnSpec cfgEx) := by
  refine ⟨claim6_factory.1 [("bogus", [])] "bogus" [] (by simp) (by decide),
    (claim6_factory.2.1 ([], []) 7 (.error .fileNotFound) (.ok none)).2,
    by decide, claim6_factory.2.2 cfgEx (by decide)⟩

theorem isHard_add {x y : F} (hx : isHard x) (hy : isHard y) :
    isHard (x + y) := by
  rcases hx with rfl | rfl <;> rcases hy with rfl | rfl
  · exact Or.inl rfl
  · exact Or.inr rfl
  · exact Or.inr rfl
  · exact Or.inr rfl

theorem isHard_make_constraint {n L : ℕ} (mask : Fin n → Bool)
    (tokens : List ℕ) (i : Fin n) (j : Fin L) :
    isHard (make_constraint n L mask tokens i j) := by
  rw [make_constraint_entry]
  split
  · exact Or.inr rfl
  · exact Or.inl rfl

theorem isHard_matAdd {n L : ℕ} {M1 M2 : Mat n L}
    (h1 : ∀ i j, isHard (M1 i j)) (h2 : ∀ i j, isHard (M2 i j)) :
    ∀ i j, isHard (matAdd M1 M2 i j) :=
  fun i j => isHard_add (h1 i j) (h2 i j)

theorem isHard_ite {n L : ℕ} (c : Prop) [Decidable c] (M1 M2 : Mat n L)
    (h1 : ∀ i j, isHard (M1 i j)) (h2 : ∀ i j, isHard (M2 i j)) :
    ∀ i j, isHard ((if c then M1 else M2) i j) := by
  intro i j
  split
  · exact h1 i j
  · exact h2 i j

theorem isHard_assignMaskCol {n L : ℕ} (p : Mat n L) (mask : Fin n → Bool)
    (t : ℕ) (hp : ∀ i j, isHard (p i j)) :
    ∀ i j, isHard (assignMaskCol p mask t i j) := by
  intro i j
  show isHard (if mask i = true ∧ (j : ℕ) = t then F.ninf else p i j)
  split
  · exact Or.inr rfl
  · exact hp i j

theorem isHard_foldl_pairs {n L : ℕ} (l : List (Fin n × ℕ)) :
    ∀ p : Mat n L, (∀ i j, isHard (p i j)) →
    ∀ i j, isHard ((l.foldl
      (fun q rt => fun (i : Fin n) (j : Fin L) =>
        if i = rt.1 ∧ (j : ℕ) = rt.2 then F.ninf else q i j) p) i j) := by
  induction l with
  | nil => intro p hp; exact hp
  | cons rt l ih =>
      intro p hp i j
      rw [List.foldl_cons]
      refine ih _ ?_ i j
      intro i j
      split
      · exact Or.inr rfl
      · exact hp i j

theorem isHard_foldl_row {n L : ℕ} (r : Fin n) (ts : List ℕ) :
    ∀ p : Mat n L, (∀ i j, isHard (p i j)) →
    ∀ i j, isHard ((ts.foldl
      (fun q t => fun (i : Fin n) (j : Fin L) =>
        if i = r ∧ (j : ℕ) = t then F.ninf else q i j) p) i j) := by
  induction ts with
  | nil => intro p hp; exact hp
  | cons t ts ih =>
      intro p hp i j
      rw [List.foldl_cons]
      refine ih _ ?_ i j
      intro i j
      split
      · exact Or.inr rfl
      · exact hp i j

theorem isHard_assignMaskVec {n L : ℕ} (p : Mat n L) (mask : Fin n → Bool)
    (ts : List ℕ) (q : Mat n L) (hp : ∀ i j, isHard (p i j))
    (h : assignMaskVec p mask ts = some q) :
    ∀ i j, isHard (q i j) := by
  simp only [assignMaskVec] at h
  split at h
  · injection h with h'
    rw [← h']
    exact isHard_foldl_pairs _ p hp
  · split at h
    · injection h with h'
      rw [← h']
      exact isHard_assignMaskCol p mask _ hp
    · split at h
      · injection h with h'
        rw [← h']
        exact isHard_foldl_row _ ts p hp
      · exact Option.noConfusion h

theorem isHard_make_constraint_vec {n L : ℕ} (mask : Fin n → Bool) :
    ∀ (groups : List (List ℕ)) (p q : Mat n L), (∀ i j, isHard (p i j)) →
    groups.foldlM (fun p ts => assignMaskVec p mask ts) p = some q →
    ∀ i j, isHard (q i j) := by
  intro groups
  induction groups with
  | nil =>
      intro p q hp h
      have hpure : (pure p : Option (Mat n L)) = some p := rfl
      rw [List.foldlM_nil, hpure] at h
      injection h with h'
      rw [← h']
      exact hp
  | cons ts gs ih =>
      intro p q hp h
      rw [List.foldlM_cons] at h
      rcases hstep : assignMaskVec p mask ts with _ | p'
      · rw [hstep] at h
        exact Option.noConfusion h
      · rw [hstep] at h
        have hb : ((some p' : Option (Mat n L)) >>=
            fun a => gs.foldlM (fun p ts => assignMaskVec p mask ts) a) =
            gs.foldlM (fun p ts => assignMaskVec p mask ts) p' := rfl
        rw [hb] at h
        exact ih p' q (isHard_assignMaskVec p mask ts p' hp hstep) h

theorem isHard_foldl_matAdd {n L : ℕ} :
    ∀ (l : List (Mat n L)) (z : Mat n L),
    (∀ M ∈ l, ∀ i j, isHard (M i j)) → (∀ i j, isHard (z i j)) →
    ∀ i j, isHard ((l.foldl matAdd z) i j) := by
  intro l
  induction l with
  | nil => intro z _ hz; exact hz
  | cons M l ih =>
      intro z hl hz i j
      rw [List.foldl_cons]
      refine ih _ (fun M' hM' => hl M' (List.mem_cons_of_mem M hM')) ?_ i j
      exact isHard_matAdd hz (hl M (List.mem_cons_self M l))

theorem isHard_relationalCall (lib : Library) {n t : ℕ}
    (targets effectors : List ℕ) (rel : Relationship)
    (anc : Fin n → Bool) (b : BatchArgs n t) (M : Mat n lib.L)
    (h : relationalCall lib targets effectors rel anc b = some M) :
    ∀ i j, isHard (M i j) := by
  cases rel with
  | descendant =>
      injection h with h'
      rw [← h']
      intro i j
      exact isHard_make_constraint anc targets i j
  | child =>
      injection h with h'
      rw [← h']
      intro i j
      exact isHard_make_constraint _ targets i j
  | sibling =>
      injection h with h'
      rw [← h']
      intro i j
      exact isHard_add (isHard_make_constraint _ targets i j)
        (isHard_make_constraint _ effectors i j)
  | uchild =>
      exact isHard_make_constraint_vec _ [targets] (zeroMat n lib.L) M
        (fun _ _ => Or.inl rfl) h

theorem isHard_inverseUnaryCall (lib : Library) {n t : ℕ}
    (b : BatchArgs n t) : ∀ i j, isHard (inverseUnaryCall lib b i j) := by
  intro i j
  refine isHard_foldl_matAdd _ (zeroMat n lib.L) ?_ (fun _ _ => Or.inl rfl) i j
  intro M hM
  rcases List.mem_map.mp hM with ⟨pr, _, rfl⟩
  intro i j
  exact isHard_make_constraint _ [pr.1] i j

theorem isHard_repeatCall (st : RepeatState) (L : ℕ) {n t : ℕ}
    (b : BatchArgs n t) (M : Mat n L) (h : repeatCall st L b = some M) :
    ∀ i j, isHard (M i j) := by
  rcases st with ⟨tks, mn, mx⟩
  cases mn with
  | some m' => exact Option.noConfusion h
  | none =>
      cases mx with
      | none =>
          injection h with h'
          rw [← h']
          exact fun _ _ => Or.inl rfl
      | some m =>
          injection h with h'
          rw [← h']
          exact isHard_matAdd (fun _ _ => Or.inl rfl)
            (fun i j => isHard_make_constraint _ tks i j)

theorem isHard_noInputsCall (lib : Library) {n t : ℕ} (b : BatchArgs n t) :
    ∀ i j, isHard (noInputsCall lib b i j) :=
  fun i j => isHard_make_constraint _ lib.float_tokens i j

theorem isHard_lengthCall (lib : Library) (mn mx : Option ℕ) {n t : ℕ}
    (b : BatchArgs n t) : ∀ i j, isHard (lengthCall lib mn mx b i j) := by
  cases mn with
  | none =>
      cases mx with
      | none => exact fun _ _ => Or.inl rfl
      | some m =>
          have hred : lengthCall lib none (some m) b =
              (if ((t : ℤ) - 1) + 2 ≥ ((m / 2 : ℕ) : ℤ) then
                matAdd
                  (matAdd (zeroMat n lib.L)
                    (make_constraint n lib.L
                      (fun s => decide ((b.dangling s : ℤ) ≥
                        (m : ℤ) - (((t : ℤ) - 1) + 1) - 1))
                      lib.binary_tokens))
                  (make_constraint n lib.L
                    (fun s => decide ((b.dangling s : ℤ) =
                      (m : ℤ) - (((t : ℤ) - 1) + 1)))
                    lib.unary_tokens)
              else zeroMat n lib.L) := rfl
          rw [hred]
          refine isHard_ite _ _ _ ?_ (fun _ _ => Or.inl rfl)
          exact isHard_matAdd
            (isHard_matAdd (fun _ _ => Or.inl rfl)
              (fun i j => isHard_make_constraint _ lib.binary_tokens i j))
            (fun i j => isHard_make_constraint _ lib.unary_tokens i j)
  | some mn' =>
      cases mx with
      | none =>
          have hred : lengthCall lib (some mn') none b =
              (if ((t : ℤ) - 1) + 2 < (mn' : ℤ) then
                matAdd (zeroMat n lib.L)
                  (make_constraint n lib.L
                    (fun s => decide (b.dangling s = 1))
                    lib.terminal_tokens)
              else zeroMat n lib.L) := rfl
          rw [hred]
          refine isHard_ite _ _ _ ?_ (fun _ _ => Or.inl rfl)
          exact isHard_matAdd (fun _ _ => Or.inl rfl)
            (fun i j => isHard_make_constraint _ lib.terminal_tokens i j)
      | some m =>
          have hred : lengthCall lib (some mn') (some m) b =
              (if ((t : ℤ) - 1) + 2 < (mn' : ℤ) then
                matAdd
                  (if ((t : ℤ) - 1) + 2 ≥ ((m / 2 : ℕ) : ℤ) then
                    matAdd
                      (matAdd (zeroMat n lib.L)
                        (make_constraint n lib.L
                          (fun s => decide ((b.dangling s : ℤ) ≥
                            (m : ℤ) - (((t : ℤ) - 1) + 1) - 1))
                          lib.binary_tokens))
                      (make_constraint n lib.L
                        (fun s => decide ((b.dangling s : ℤ) =
                          (m : ℤ) - (((t : ℤ) - 1) + 1)))
                        lib.unary_tokens)
                  else zeroMat n lib.L)
                  (make_constraint n lib.L
                    (fun s => decide (b.dangling s = 1))
                    lib.terminal_tokens)
              else
                (if ((t : ℤ) - 1) + 2 ≥ ((m / 2 : ℕ) : ℤ) then
                  matAdd
                    (matAdd (zeroMat n lib.L)
                      (make_constraint n lib.L
                        (fun s => decide ((b.dangling s : ℤ) ≥
                          (m : ℤ) - (((t : ℤ) - 1) + 1) - 1))
                        lib.binary_tokens))
                    (make_constraint n lib.L
                      (fun s => decide ((b.dangling s : ℤ) =
                        (m : ℤ) - (((t : ℤ) - 1) + 1)))
                      lib.unary_tokens)
                else zeroMat n lib.L)) := rfl
          rw [hred]
          have hmax : ∀ i j, isHard
              ((if ((t : ℤ) - 1) + 2 ≥ ((m / 2 : ℕ) : ℤ) then
                matAdd
                  (matAdd (zeroMat n lib.L)
                    (make_constraint n lib.L
                      (fun s => decide ((b.dangling s : ℤ) ≥
                        (m : ℤ) - (((t : ℤ) - 1) + 1) - 1))
                      lib.binary_tokens))
                  (make_constraint n lib.L
                    (fun s => decide ((b.dangling s : ℤ) =
                      (m : ℤ) - (((t : ℤ) - 1) + 1)))
                    lib.unary_tokens)
              else zeroMat n lib.L) i j) := by
            refine isHard_ite _ _ _ ?_ (fun _ _ => Or.inl rfl)
            exact isHard_matAdd
              (isHard_matAdd (fun _ _ => Or.inl rfl)
                (fun i j => isHard_make_constraint _ lib.binary_tokens i j))
              (fun i j => isHard_make_constraint _ lib.unary_tokens i j)
          refine isHard_ite _ _ _ ?_ hmax
          exact isHard_matAdd hmax
            (fun i j => isHard_make_constraint _ lib.terminal_tokens i j)

/-- Claim C10: every array a Constraint call returns holds only the values
0.0 and -inf — for RelationalConstraint (all four relationships, with its
two-pass sibling addition), InverseUnaryConstraint's summed
pair-constraints, RepeatConstraint, NoInputsConstraint and
LengthConstraint — so adding overlapping masks never produces NaN, +inf
or a finite nonzero value. -/
theorem claim10_hard_values :
    (∀ (lib : Library) (n t : ℕ) (targets effectors : List ℕ)
        (rel : Relationship) (anc : Fin n → Bool) (b : BatchArgs n t)
        (M : Mat n lib.L),
      relationalCall lib targets effectors rel anc b = some M →
      ∀ i j, isHard (M i j)) ∧
    (∀ (lib : Library) (n t : ℕ) (b : BatchArgs n t) (i : Fin n)
        (j : Fin lib.L), isHard (inverseUnaryCall lib b i j)) ∧
    (∀ (st : RepeatState) (L n t : ℕ) (b : BatchArgs n t) (M : Mat n L),
      repeatCall st L b = some M → ∀ i j, isHard (M i j)) ∧
    (∀ (lib : Library) (n t : ℕ) (b : BatchArgs n t) (i : Fin n)
        (j : Fin lib.L), isHard (noInputsCall lib b i j)) ∧
    (∀ (lib : Library) (mn mx : Option ℕ) (n t : ℕ) (b : BatchArgs n t)
        (i : Fin n) (j : Fin lib.L), isHard (lengthCall lib mn mx b i j)) :=
  ⟨fun lib n t targets effectors rel anc b M h =>
      isHard_relationalCall lib targets effectors rel anc b M h,
   fun lib n t b i j => isHard_inverseUnaryCall lib b i j,
   fun st L n t b M h => isHard_repeatCall st L b M h,
   fun lib n t b i j => isHard_noInputsCall lib b i j,
   fun lib mn mx n t b i j => isHard_lengthCall lib mn mx b i j⟩

/-- Witness for C10 on a concrete child RelationalConstraint call. -/
theorem claim10_witness :
    isHard ((relationalChild lib8 [1] [2] b8) ⟨0, by decide⟩
      ⟨0, by decide⟩) :=
  claim10_hard_values.1 lib8 1 1 [1] [2] .child (fun _ => false) b8
    (relationalChild lib8 [1] [2] b8) rfl ⟨0, by decide⟩ ⟨0, by decide⟩
